import Mathlib

set_option linter.unusedSectionVars false
set_option linter.unusedVariables false

/-!
Verification of the bucket-index / training-loop core of the
neural-locality-sensitive-hashing repository.

The Python sources `nlsh/trainers.py` and `nlsh/loggers.py` are shallowly
embedded below: the dictionary built by `build_index` becomes an association
list in key insertion order, tensors become lists, fallible collaborators
(the hashing capability and the distance function) return `Except`, and the
`RuntimeError` thrown by a too-short `topk` becomes an `Option` returned by
the selection model.
-/

namespace NLSH

variable {K : Type} [DecidableEq K]

/-- One iteration of the dictionary-building loop of `build_index`
(`nlsh/trainers.py` lines 27-31): row `idx` is appended to the bucket of
`key`, and a new bucket is created at the end when the key is unseen.  The
Python dict (insertion-ordered) is modelled as an association list. -/
def addRow (d : List (K × List Nat)) (key : K) (idx : Nat) : List (K × List Nat) :=
  if key ∈ d.map Prod.fst then
    d.map (fun p => if p.1 = key then (p.1, p.2 ++ [idx]) else p)
  else
    d ++ [(key, [idx])]

/-- The loop `for idx, index in enumerate(indexes)` of `build_index`, where
`start` is the value of `idx` for the head of the remaining list. -/
def buildIndexAux (d : List (K × List Nat)) (start : Nat) : List K → List (K × List Nat)
  | [] => d
  | x :: rest => buildIndexAux (addRow d x start) (start + 1) rest

/-- `build_index` (`nlsh/trainers.py` lines 25-39).  The final conversion of
each row list to a `torch.LongTensor` does not change the stored row
indices, so buckets stay `List Nat`. -/
def build_index (indexes : List K) : List (K × List Nat) :=
  buildIndexAux [] 0 indexes

/-- `index2row.get(key, empty)`: the bucket of `key`, `[]` when unseen. -/
def lookupRows : List (K × List Nat) → K → List Nat
  | [], _ => []
  | p :: d, key => if p.1 = key then p.2 else lookupRows d key

/-- Positions, counted from `start`, at which `key` occurs in a key list.
This is the specification value of a bucket of `build_index`. -/
def keyPositions (key : K) (start : Nat) : List K → List Nat
  | [] => []
  | x :: rest => (if x = key then [start] else []) ++ keyPositions key (start + 1) rest

lemma map_update_of_not_mem (d : List (K × List Nat)) (key : K) (idx : Nat)
    (h : key ∉ d.map Prod.fst) :
    d.map (fun q => if q.1 = key then (q.1, q.2 ++ [idx]) else q) = d := by
  induction d with
  | nil => rfl
  | cons p rest ih =>
    rw [List.map_cons, List.mem_cons] at h
    push_neg at h
    obtain ⟨h1, h2⟩ := h
    have hp : p.1 ≠ key := fun hk => h1 hk.symm
    rw [List.map_cons, if_neg hp, ih h2]

lemma addRow_cons_ne (p : K × List Nat) (d : List (K × List Nat)) (key : K) (idx : Nat)
    (h : p.1 ≠ key) :
    addRow (p :: d) key idx = p :: addRow d key idx := by
  by_cases hmem : key ∈ d.map Prod.fst
  · have hmem2 : key ∈ (p :: d).map Prod.fst := by
      rw [List.map_cons, List.mem_cons]
      exact Or.inr hmem
    unfold addRow
    rw [if_pos hmem2, if_pos hmem, List.map_cons, if_neg h]
  · have hmem2 : key ∉ (p :: d).map Prod.fst := by
      rw [List.map_cons, List.mem_cons]
      intro hcontra
      rcases hcontra with hk | hk
      · exact h hk.symm
      · exact hmem hk
    unfold addRow
    rw [if_neg hmem2, if_neg hmem, List.cons_append]

lemma addRow_cons_eq (p : K × List Nat) (d : List (K × List Nat)) (key : K) (idx : Nat)
    (h : p.1 = key) :
    addRow (p :: d) key idx =
      (p.1, p.2 ++ [idx]) :: d.map (fun q => if q.1 = key then (q.1, q.2 ++ [idx]) else q) := by
  have hmem : key ∈ (p :: d).map Prod.fst := by
    rw [List.map_cons, List.mem_cons]
    exact Or.inl h.symm
  unfold addRow
  rw [if_pos hmem, List.map_cons, if_pos h]

lemma addRow_keys (d : List (K × List Nat)) (key : K) (idx : Nat) :
    (addRow d key idx).map Prod.fst =
      if key ∈ d.map Prod.fst then d.map Prod.fst else d.map Prod.fst ++ [key] := by
  unfold addRow
  split
  · rw [List.map_map]
    refine List.map_congr_left ?_
    intro p _
    by_cases hp : p.1 = key
    · simp [hp]
    · simp [hp]
  · simp

lemma addRow_keys_nodup (d : List (K × List Nat)) (key : K) (idx : Nat)
    (hnd : (d.map Prod.fst).Nodup) :
    ((addRow d key idx).map Prod.fst).Nodup := by
  rw [addRow_keys]
  split
  · exact hnd
  · rename_i hmem
    rw [List.nodup_append]
    exact ⟨hnd, List.nodup_singleton key, by simpa using hmem⟩

lemma lookupRows_addRow (d : List (K × List Nat)) (key key' : K) (idx : Nat)
    (hnd : (d.map Prod.fst).Nodup) :
    lookupRows (addRow d key idx) key' =
      if key' = key then lookupRows d key ++ [idx] else lookupRows d key' := by
  induction d with
  | nil =>
    by_cases h : key' = key
    · subst h
      simp [addRow, lookupRows]
    · have h2 : key ≠ key' := fun hk => h hk.symm
      simp [addRow, lookupRows, h, h2]
  | cons p rest ih =>
    rw [List.map_cons, List.nodup_cons] at hnd
    obtain ⟨hp_not, hrest⟩ := hnd
    by_cases hp : p.1 = key
    · rw [addRow_cons_eq p rest key idx hp,
        map_update_of_not_mem rest key idx (hp ▸ hp_not)]
      by_cases h : key' = key
      · subst h
        simp [lookupRows, hp]
      · have hp' : p.1 ≠ key' := fun hk => h (hk.symm.trans hp)
        simp [lookupRows, hp', h]
    · rw [addRow_cons_ne p rest key idx hp]
      by_cases h : key' = key
      · subst h
        simp [lookupRows, hp, ih hrest]
      · by_cases hpk : p.1 = key'
        · simp [lookupRows, hpk, h]
        · simp [lookupRows, hpk, h, ih hrest]

lemma buildIndexAux_keys_nodup :
    ∀ (xs : List K) (d : List (K × List Nat)) (s : Nat),
      (d.map Prod.fst).Nodup → ((buildIndexAux d s xs).map Prod.fst).Nodup
  | [], _, _, hnd => hnd
  | x :: rest, d, s, hnd =>
    buildIndexAux_keys_nodup rest (addRow d x s) (s + 1) (addRow_keys_nodup d x s hnd)

lemma lookupRows_buildIndexAux :
    ∀ (xs : List K) (d : List (K × List Nat)) (s : Nat) (key : K),
      (d.map Prod.fst).Nodup →
      lookupRows (buildIndexAux d s xs) key = lookupRows d key ++ keyPositions key s xs := by
  intro xs
  induction xs with
  | nil => intro d s key _; simp [buildIndexAux, keyPositions]
  | cons x rest ih =>
    intro d s key hnd
    have step : lookupRows (buildIndexAux d s (x :: rest)) key =
        lookupRows (addRow d x s) key ++ keyPositions key (s + 1) rest :=
      ih (addRow d x s) (s + 1) key (addRow_keys_nodup d x s hnd)
    rw [step, lookupRows_addRow d x key s hnd]
    by_cases h : key = x
    · subst h
      simp [keyPositions, List.append_assoc]
    · have h2 : x ≠ key := fun hk => h hk.symm
      simp [keyPositions, h, h2]

lemma build_index_keys_nodup (xs : List K) : ((build_index xs).map Prod.fst).Nodup :=
  buildIndexAux_keys_nodup xs [] 0 (by simp)

lemma lookupRows_build_index (xs : List K) (key : K) :
    lookupRows (build_index xs) key = keyPositions key 0 xs := by
  unfold build_index
  rw [lookupRows_buildIndexAux xs [] 0 key (by simp)]
  simp [lookupRows]

lemma keyPositions_ge (key : K) :
    ∀ (xs : List K) (s i : Nat), i ∈ keyPositions key s xs → s ≤ i := by
  intro xs
  induction xs with
  | nil => intro s i h; simp [keyPositions] at h
  | cons x rest ih =>
    intro s i h
    simp only [keyPositions, List.mem_append] at h
    rcases h with h | h
    · by_cases hx : x = key
      · simp [hx] at h
        omega
      · simp [hx] at h
    · have := ih (s + 1) i h
      omega

lemma keyPositions_sorted (key : K) :
    ∀ (xs : List K) (s : Nat), (keyPositions key s xs).Sorted (· < ·) := by
  intro xs
  induction xs with
  | nil => intro s; simp [keyPositions]
  | cons x rest ih =>
    intro s
    by_cases hx : x = key
    · have h0 : keyPositions key s (x :: rest) = s :: keyPositions key (s + 1) rest := by
        simp only [keyPositions]
        rw [if_pos hx, List.singleton_append]
      rw [h0, List.sorted_cons]
      refine ⟨fun b hb => ?_, ih (s + 1)⟩
      have := keyPositions_ge key rest (s + 1) b hb
      omega
    · simpa [keyPositions, hx] using ih (s + 1)

lemma mem_keyPositions_of_getq (key : K) :
    ∀ (xs : List K) (s j : Nat), xs.get? j = some key → (s + j) ∈ keyPositions key s xs := by
  intro xs
  induction xs with
  | nil => intro s j h; simp at h
  | cons x rest ih =>
    intro s j h
    cases j with
    | zero =>
      simp only [List.get?] at h
      have hx : x = key := by injection h
      simp [keyPositions, hx]
    | succ j =>
      simp only [List.get?] at h
      have hmem := ih (s + 1) j h
      have harith : s + (j + 1) = (s + 1) + j := by omega
      simp only [keyPositions, List.mem_append]
      right
      rw [harith]
      exact hmem

lemma buildIndexAux_append :
    ∀ (xs ys : List K) (d : List (K × List Nat)) (s : Nat),
      buildIndexAux d s (xs ++ ys) = buildIndexAux (buildIndexAux d s xs) (s + xs.length) ys := by
  intro xs
  induction xs with
  | nil => intro ys d s; simp [buildIndexAux]
  | cons x rest ih =>
    intro ys d s
    have h1 : buildIndexAux d s ((x :: rest) ++ ys) =
        buildIndexAux (addRow d x s) (s + 1) (rest ++ ys) := rfl
    have h2 : buildIndexAux d s (x :: rest) =
        buildIndexAux (addRow d x s) (s + 1) rest := rfl
    rw [h1, ih ys (addRow d x s) (s + 1), h2]
    have h3 : s + 1 + rest.length = s + (x :: rest).length := by
      simp only [List.length_cons]
      omega
    rw [h3]

lemma build_index_snoc (xs : List K) (x : K) :
    build_index (xs ++ [x]) = addRow (build_index xs) x xs.length := by
  unfold build_index
  rw [buildIndexAux_append xs [x] [] 0]
  simp [buildIndexAux]

lemma join_addRow (d : List (K × List Nat)) (key : K) (idx : Nat)
    (hnd : (d.map Prod.fst).Nodup) :
    List.Perm ((addRow d key idx).map Prod.snd).flatten
      ((d.map Prod.snd).flatten ++ [idx]) := by
  induction d with
  | nil => simp [addRow]
  | cons p rest ih =>
    rw [List.map_cons, List.nodup_cons] at hnd
    obtain ⟨hp_not, hrest⟩ := hnd
    by_cases hp : p.1 = key
    · rw [addRow_cons_eq p rest key idx hp,
        map_update_of_not_mem rest key idx (hp ▸ hp_not)]
      rw [List.map_cons, List.flatten_cons, List.map_cons, List.flatten_cons,
        List.append_assoc, List.append_assoc]
      exact List.Perm.append_left p.2 List.perm_append_comm
    · rw [addRow_cons_ne p rest key idx hp]
      have step : List.Perm (p.2 ++ ((addRow rest key idx).map Prod.snd).flatten)
          (p.2 ++ ((rest.map Prod.snd).flatten ++ [idx])) :=
        List.Perm.append_left p.2 (ih hrest)
      have heq : p.2 ++ ((rest.map Prod.snd).flatten ++ [idx])
          = (p.2 ++ (rest.map Prod.snd).flatten) ++ [idx] := (List.append_assoc _ _ _).symm
      rw [List.map_cons, List.flatten_cons, List.map_cons, List.flatten_cons]
      exact heq ▸ step

lemma build_index_join_perm (xs : List K) :
    List.Perm ((build_index xs).map Prod.snd).flatten (List.range xs.length) := by
  induction xs using List.reverseRecOn with
  | nil => simp [build_index, buildIndexAux]
  | append_singleton xs x ih =>
    rw [build_index_snoc]
    have h1 := join_addRow (build_index xs) x xs.length (build_index_keys_nodup xs)
    have h2 : List.Perm (((build_index xs).map Prod.snd).flatten ++ [xs.length])
        (List.range xs.length ++ [xs.length]) := ih.append_right [xs.length]
    have h3 : List.range xs.length ++ [xs.length] = List.range (xs ++ [x]).length := by
      rw [List.length_append, List.length_singleton, List.range_succ]
    rw [← h3]
    exact h1.trans h2

/-- Claim C1: the `BucketTable` built by `build_index` partitions the
candidate row range: the concatenation of all bucket row lists is a
permutation of `0..N-1` (union is the full range, no duplicates within or
across buckets), the bucket keys are pairwise distinct, and every row lies
in the bucket of its own hash key. -/
theorem build_index_partitions (xs : List K) :
    List.Perm ((build_index xs).map Prod.snd).flatten (List.range xs.length)
    ∧ ((build_index xs).map Prod.fst).Nodup
    ∧ ∀ i key, xs.get? i = some key → i ∈ lookupRows (build_index xs) key := by
  refine ⟨build_index_join_perm xs, build_index_keys_nodup xs, ?_⟩
  intro i key h
  rw [lookupRows_build_index]
  simpa using mem_keyPositions_of_getq key xs 0 i h

/-- Witness for C1 at a concrete key list: row 2 of `[0, 1, 0]` lies in the
bucket of its own key `0`. -/
theorem build_index_partitions_witness :
    ([(0 : Nat), 1, 0].get? 2 = some 0)
    ∧ 2 ∈ lookupRows (build_index [(0 : Nat), 1, 0]) 0 :=
  ⟨by decide, (build_index_partitions [(0 : Nat), 1, 0]).2.2 2 0 (by decide)⟩

/-- Claim C9: every bucket row list produced by `build_index` is strictly
increasing, i.e. rows are stored in their original candidate-set order. -/
theorem build_index_buckets_sorted (xs : List K) (key : K) :
    (lookupRows (build_index xs) key).Sorted (· < ·) := by
  rw [lookupRows_build_index]
  exact keyPositions_sorted key xs 0

variable {V Er : Type}

/-- The chunk loop of `_Indexer.hash` (`nlsh/trainers.py` lines 60-66):
apply the hashing capability `H` to each slice `v[i*bs : (i+1)*bs]` for the
batch indices still to process, accumulating the keys; an exception raised
by the capability propagates. -/
def hashBatches (H : List V → Except Er (List K)) (v : List V) (bs : Nat) :
    List Nat → List K → Except Er (List K)
  | [], acc => Except.ok acc
  | i :: rest, acc =>
    match H ((v.drop (i * bs)).take bs) with
    | Except.ok hash_key => hashBatches H v bs rest (acc ++ hash_key)
    | Except.error e => Except.error e

/-- `_Indexer.hash` (`nlsh/trainers.py` lines 56-70): hash `n / batch_size`
full slices, then the final partial slice `v[n_batches*batch_size :]`
(which is empty when `batch_size` divides `n`), concatenating the per-row
keys in order. -/
def indexerHash (H : List V → Except Er (List K)) (query_vectors : List V)
    (batch_size : Nat) : Except Er (List K) :=
  match hashBatches H query_vectors batch_size
      (List.range (query_vectors.length / batch_size)) [] with
  | Except.ok hash_keys =>
    match H (query_vectors.drop (query_vectors.length / batch_size * batch_size)) with
    | Except.ok hash_key => Except.ok (hash_keys ++ hash_key)
    | Except.error e => Except.error e
  | Except.error e => Except.error e

lemma chunks_flatten {α : Type} (bs : Nat) (hbs : 0 < bs) :
    ∀ v : List α,
      ((List.range (v.length / bs)).map (fun i => (v.drop (i * bs)).take bs)).flatten
        ++ v.drop (v.length / bs * bs) = v := by
  have main : ∀ (n : Nat) (v : List α), v.length ≤ n →
      ((List.range (v.length / bs)).map (fun i => (v.drop (i * bs)).take bs)).flatten
        ++ v.drop (v.length / bs * bs) = v := by
    intro n
    induction n with
    | zero =>
      intro v hv
      have hnil : v = [] := List.length_eq_zero.mp (Nat.le_zero.mp hv)
      subst hnil
      simp
    | succ n ih =>
      intro v hv
      by_cases hsmall : v.length < bs
      · have h0 : v.length / bs = 0 := Nat.div_eq_of_lt hsmall
        simp [h0]
      · push_neg at hsmall
        have hwlen : (v.drop bs).length = v.length - bs := by
          rw [List.length_drop]
        have hwle : (v.drop bs).length ≤ n := by omega
        have ihw := ih (v.drop bs) hwle
        have hm : v.length / bs = (v.drop bs).length / bs + 1 := by
          rw [hwlen]
          exact Nat.div_eq_sub_div hbs hsmall
        have hcomp : ∀ i ∈ List.range ((v.drop bs).length / bs),
            ((fun i => (v.drop (i * bs)).take bs) ∘ Nat.succ) i
              = ((v.drop bs).drop (i * bs)).take bs := by
          intro i _
          show (v.drop (Nat.succ i * bs)).take bs = ((v.drop bs).drop (i * bs)).take bs
          rw [List.drop_drop, Nat.succ_mul, Nat.add_comm (i * bs) bs]
        have htail : v.drop (((v.drop bs).length / bs + 1) * bs)
            = (v.drop bs).drop ((v.drop bs).length / bs * bs) := by
          rw [List.drop_drop, Nat.add_mul, Nat.one_mul,
            Nat.add_comm ((v.drop bs).length / bs * bs) bs]
        rw [hm, List.range_succ_eq_map, List.map_cons, List.flatten_cons, List.map_map,
          List.map_congr_left hcomp, htail, Nat.zero_mul, List.drop_zero,
          List.append_assoc, ihw]
        exact List.take_append_drop bs v
  intro v
  exact main v.length v le_rfl

lemma hashBatches_ok (H : List V → Except Er (List K)) (f : V → K)
    (hH : ∀ l, H l = Except.ok (l.map f)) (v : List V) (bs : Nat) :
    ∀ (l : List Nat) (acc : List K),
      hashBatches H v bs l acc
        = Except.ok (acc ++ (l.map (fun i => ((v.drop (i * bs)).take bs).map f)).flatten) := by
  intro l
  induction l with
  | nil => intro acc; simp [hashBatches]
  | cons i rest ih =>
    intro acc
    rw [hashBatches, hH ((v.drop (i * bs)).take bs)]
    show hashBatches H v bs rest (acc ++ ((v.drop (i * bs)).take bs).map f) = _
    rw [ih (acc ++ ((v.drop (i * bs)).take bs).map f)]
    simp [List.append_assoc]

lemma indexerHash_ok (H : List V → Except Er (List K)) (f : V → K)
    (hH : ∀ l, H l = Except.ok (l.map f)) (batch_size : Nat) (hbs : 0 < batch_size)
    (v : List V) : indexerHash H v batch_size = Except.ok (v.map f) := by
  have hchunks := chunks_flatten batch_size hbs v
  rw [indexerHash, hashBatches_ok H f hH v batch_size
    (List.range (v.length / batch_size)) [], hH]
  have hmapmap :
      ((List.range (v.length / batch_size)).map
          (fun i => ((v.drop (i * batch_size)).take batch_size).map f)).flatten
        ++ (v.drop (v.length / batch_size * batch_size)).map f
        = v.map f := by
    have h1 : ((List.range (v.length / batch_size)).map
          (fun i => ((v.drop (i * batch_size)).take batch_size).map f))
        = (((List.range (v.length / batch_size)).map
          (fun i => (v.drop (i * batch_size)).take batch_size)).map (List.map f)) := by
      rw [List.map_map]
      rfl
    rw [h1, ← List.map_flatten, ← List.map_append, hchunks]
  simp only [List.nil_append]
  rw [hmapmap]

/-- Claim C4: with a length- and order-preserving (i.e. per-row) hashing
capability and a positive chunk size, `_Indexer.hash` returns exactly the
key sequence of hashing the whole vector set at once: the concatenation of
the keys of the `n / batch_size` full chunks and of the final partial chunk
of size `n % batch_size` equals the per-row key list. -/
theorem indexerHash_batching_consistent (H : List V → Except Er (List K)) (f : V → K)
    (hH : ∀ l, H l = Except.ok (l.map f)) (batch_size : Nat) (hbs : 0 < batch_size)
    (v : List V) :
    indexerHash H v batch_size = H v
    ∧ indexerHash H v batch_size = Except.ok (v.map f)
    ∧ (v.drop (v.length / batch_size * batch_size)).length = v.length % batch_size := by
  have hok := indexerHash_ok H f hH batch_size hbs v
  refine ⟨?_, hok, ?_⟩
  · rw [hok, hH]
  · rw [List.length_drop]
    have hdm := Nat.div_add_mod' v.length batch_size
    have hle : v.length / batch_size * batch_size ≤ v.length := Nat.div_mul_le_self _ _
    omega

/-- Witness for C4: hashing `[5, 6, 7]` with chunk size 2 under the
per-row capability `x + 1` equals hashing the whole list at once. -/
theorem indexerHash_batching_witness :
    indexerHash (fun l : List Nat => (Except.ok (l.map (fun x => x + 1)) : Except Unit (List Nat)))
        [5, 6, 7] 2
      = Except.ok [6, 7, 8] :=
  (indexerHash_batching_consistent
    (fun l : List Nat => (Except.ok (l.map (fun x => x + 1)) : Except Unit (List Nat)))
    (fun x => x + 1) (fun _ => rfl) 2 (by decide) [5, 6, 7]).2.1

/-- `calculate_recall` (`nlsh/trainers.py` lines 14-18): the number of
common elements of the two collections viewed as sets, divided by the
number of ground-truth entries.  Python's `ZeroDivisionError` on an empty
`y_true` is modelled by `none`. -/
def calculate_recall (y_true y_pred : List Int) : Option ℚ :=
  let n_true := y_true.length
  let true_positives := (y_true.toFinset ∩ y_pred.toFinset).card
  if n_true = 0 then none
  else some ((true_positives : ℚ) / (n_true : ℚ))

/-- Claim C5: for non-empty ground truth, `calculate_recall` returns
`|set(y_true) ∩ set(y_pred)| / |y_true|`; the value is in `[0, 1]`; it is
`1` when the predicted set contains the (duplicate-free) true set, `0` when
the sets are disjoint, and `2/3` on the documented scenario; an empty
`y_true` is a fault, modelled by `none`. -/
theorem calculate_recall_spec (y_true y_pred : List Int) (hne : y_true ≠ []) :
    calculate_recall y_true y_pred
        = some (((y_true.toFinset ∩ y_pred.toFinset).card : ℚ) / (y_true.length : ℚ))
    ∧ (∀ r, calculate_recall y_true y_pred = some r → 0 ≤ r ∧ r ≤ 1)
    ∧ (y_true.Nodup → y_true.toFinset ⊆ y_pred.toFinset →
        calculate_recall y_true y_pred = some 1)
    ∧ (y_true.toFinset ∩ y_pred.toFinset = ∅ → calculate_recall y_true y_pred = some 0)
    ∧ calculate_recall [0, 1, 2] [1, 2, 5] = some (2 / 3)
    ∧ (∀ l : List Int, calculate_recall [] l = none) := by
  have hlen0 : y_true.length ≠ 0 := fun h0 => hne (List.length_eq_zero.mp h0)
  have hpos : 0 < (y_true.length : ℚ) := by
    exact_mod_cast Nat.pos_of_ne_zero hlen0
  have hval : calculate_recall y_true y_pred
      = some (((y_true.toFinset ∩ y_pred.toFinset).card : ℚ) / (y_true.length : ℚ)) := by
    simp [calculate_recall, hlen0]
  have hscenario : calculate_recall [0, 1, 2] [1, 2, 5] = some (2 / 3) := by
    have hcard : (([0, 1, 2] : List Int).toFinset ∩ ([1, 2, 5] : List Int).toFinset).card = 2 := by
      decide
    simp only [calculate_recall, hcard, List.length_cons, List.length_nil]
    norm_num
  refine ⟨hval, ?_, ?_, ?_, hscenario, fun l => rfl⟩
  · intro r hr
    rw [hval] at hr
    simp only [Option.some.injEq] at hr
    subst hr
    constructor
    · exact div_nonneg (by positivity) hpos.le
    · rw [div_le_one hpos]
      have hcard : (y_true.toFinset ∩ y_pred.toFinset).card ≤ y_true.length :=
        le_trans (Finset.card_le_card Finset.inter_subset_left) y_true.toFinset_card_le
      exact_mod_cast hcard
  · intro hnd hsub
    rw [hval, Finset.inter_eq_left.mpr hsub, List.toFinset_card_of_nodup hnd]
    rw [div_self (ne_of_gt hpos)]
  · intro hdisj
    rw [hval, hdisj]
    simp

/-- Witness for C5: the documented scenario, ground truth `{0,1,2}` and
prediction `[1,2,5]`, gives recall `2/3`. -/
theorem calculate_recall_witness :
    calculate_recall [0, 1, 2] [1, 2, 5] = some (2 / 3) :=
  (calculate_recall_spec [0, 1, 2] [1, 2, 5] (by decide)).2.2.2.2.1

/-- Order on (distance, position) pairs used to model
`torch.topk(k, largest=False)`: smaller distance first, ties broken by
position (`topk` returns some deterministic tie-break; this model fixes
one). -/
def distOrder (a b : ℚ × Nat) : Prop := a.1 < b.1 ∨ (a.1 = b.1 ∧ a.2 ≤ b.2)

instance : DecidableRel (α := ℚ × Nat) distOrder := fun a b => by
  unfold distOrder
  infer_instance

instance : IsTotal (ℚ × Nat) distOrder := ⟨by
  intro a b
  unfold distOrder
  rcases lt_trichotomy a.1 b.1 with h | h | h
  · exact Or.inl (Or.inl h)
  · rcases Nat.le_total a.2 b.2 with h2 | h2
    · exact Or.inl (Or.inr ⟨h, h2⟩)
    · exact Or.inr (Or.inr ⟨h.symm, h2⟩)
  · exact Or.inr (Or.inl h)⟩

instance : IsTrans (ℚ × Nat) distOrder := ⟨by
  intro a b c hab hbc
  unfold distOrder at hab hbc ⊢
  rcases hab with h1 | h1
  · rcases hbc with h2 | h2
    · exact Or.inl (h1.trans h2)
    · exact Or.inl (lt_of_lt_of_eq h1 h2.1)
  · rcases hbc with h2 | h2
    · exact Or.inl (lt_of_eq_of_lt h1.1 h2)
    · exact Or.inr ⟨h1.1.trans h2.1, h1.2.trans h2.2⟩⟩

/-- The `(value, position)` pairs of a distance list, the position indexing
into the gathered bucket. -/
def withPositions (ds : List ℚ) : List (ℚ × Nat) :=
  (List.range ds.length).map (fun i => (ds.getD i 0, i))

/-- Model of `distance.topk(k, largest=False)[1].tolist()`
(`nlsh/trainers.py` line 96): `none` models the `RuntimeError` raised when
`k` exceeds the length of the distance tensor; otherwise the positions of
the `k` smallest distances, in ascending distance order. -/
def topkSelect (k : Nat) (ds : List ℚ) : Option (List Nat) :=
  if ds.length < k then none
  else some ((((withPositions ds).insertionSort distOrder).take k).map Prod.snd)

/-- Per-query result representation of `_Indexer.query`: the `topk` branch
builds a Python list of ints (`[int(candidate_rows[i]) for i in topk_idxs]`,
line 97), while the `except RuntimeError` branch returns the bucket's
`LongTensor` `candidate_rows` itself (line 99). -/
inductive RowResult : Type
  | pyList : List Nat → RowResult
  | tensor : List Nat → RowResult
deriving DecidableEq, Inhabited

/-- The underlying row indices of either representation. -/
def RowResult.rows : RowResult → List Nat
  | RowResult.pyList l => l
  | RowResult.tensor l => l

/-- `torch.index_select(candidates, 0, candidate_rows, out=buffer[:n])`
(`nlsh/trainers.py` lines 85-90): the candidate vectors at the bucket's row
indices, in bucket order.  The reused `vector_buffer` does not change the
gathered values, so the buffer itself is not modelled. -/
def gatherRows [Inhabited V] (candidates : List V) (rows : List Nat) : List V :=
  rows.map (fun r => candidates.getD r default)

/-- One iteration of the query loop of `_Indexer.query`
(`nlsh/trainers.py` lines 76-101) for query vector `target` with hash key
`qi`: look up the bucket (empty when the key is unseen), gather the
bucket's candidate vectors, compute the batched distances, and select the
top `k`; the `RuntimeError` of a too-short selection is caught and the
bucket's row tensor is returned unranked, while a fault of the distance
computation propagates. -/
def queryRow [Inhabited V] (index2row : List (K × List Nat)) (candidates : List V)
    (distance_func : V → List V → Except Er (List ℚ)) (k : Nat) (target : V) (qi : K) :
    Except Er RowResult :=
  match distance_func target (gatherRows candidates (lookupRows index2row qi)) with
  | Except.ok distance =>
    match topkSelect k distance with
    | some topk_idxs =>
      Except.ok (RowResult.pyList
        (topk_idxs.map (fun i => (lookupRows index2row qi).getD i 0)))
    | none => Except.ok (RowResult.tensor (lookupRows index2row qi))
  | Except.error e => Except.error e

/-- The per-query loop of `_Indexer.query`: process query/key pairs in
order, collecting results; a fault in any row propagates. -/
def queryRows [Inhabited V] (index2row : List (K × List Nat)) (candidates : List V)
    (distance_func : V → List V → Except Er (List ℚ)) (k : Nat) :
    List (V × K) → Except Er (List RowResult)
  | [] => Except.ok []
  | p :: rest =>
    match queryRow index2row candidates distance_func k p.1 p.2 with
    | Except.ok res =>
      match queryRows index2row candidates distance_func k rest with
      | Except.ok results => Except.ok (res :: results)
      | Except.error e => Except.error e
    | Except.error e => Except.error e

/-- `_Indexer.query` (`nlsh/trainers.py` lines 72-102): hash the query
vectors through the batched hashing path, then process each query with its
key. -/
def indexerQuery [Inhabited V] (H : List V → Except Er (List K))
    (index2row : List (K × List Nat)) (candidates : List V)
    (distance_func : V → List V → Except Er (List ℚ)) (query_vectors : List V)
    (k bs : Nat) : Except Er (List RowResult) :=
  match indexerHash H query_vectors bs with
  | Except.ok query_indexes =>
    queryRows index2row candidates distance_func k (query_vectors.zip query_indexes)
  | Except.error e => Except.error e

/-- `_Indexer.__init__` / `_build_index` (`nlsh/trainers.py` lines 44-54):
hash the candidate set through the batched path and build the bucket
table; a hashing fault propagates out of construction. -/
def mkIndexer (H : List V → Except Er (List K)) (candidates : List V) (bs : Nat) :
    Except Er (List (K × List Nat)) :=
  match indexerHash H candidates bs with
  | Except.ok indexes => Except.ok (build_index indexes)
  | Except.error e => Except.error e

lemma map_getD_lt {α β : Type} (f : α → β) (l : List α) (i : Nat) (hi : i < l.length)
    (da : α) (db : β) : (l.map f).getD i db = f (l.getD i da) := by
  induction l generalizing i with
  | nil => simp at hi
  | cons a rest ih =>
    cases i with
    | zero => rfl
    | succ i =>
      simp only [List.map_cons, List.getD_cons_succ]
      exact ih i (by simpa using hi)

lemma topkSelect_spec (k : Nat) (ds : List ℚ) (hk : k ≤ ds.length) :
    ∃ idxs, topkSelect k ds = some idxs
      ∧ idxs.length = k
      ∧ idxs.Nodup
      ∧ (∀ i ∈ idxs, i < ds.length)
      ∧ (idxs.map (fun i => ds.getD i 0)).Sorted (· ≤ ·)
      ∧ ∀ i ∈ idxs, ∀ j, j < ds.length → j ∉ idxs → ds.getD i 0 ≤ ds.getD j 0 := by
  classical
  set s := (withPositions ds).insertionSort distOrder with hs
  have hperm : List.Perm s (withPositions ds) := List.perm_insertionSort distOrder _
  have hsorted : List.Sorted distOrder s := List.sorted_insertionSort distOrder _
  have hwplen : (withPositions ds).length = ds.length := by simp [withPositions]
  have hslen : s.length = ds.length := by rw [hperm.length_eq, hwplen]
  have hnotlt : ¬ ds.length < k := not_lt.mpr hk
  have hmem_s : ∀ p ∈ s, p.1 = ds.getD p.2 0 ∧ p.2 < ds.length := by
    intro p hp
    have hmem : p ∈ withPositions ds := hperm.mem_iff.mp hp
    simp only [withPositions, List.mem_map, List.mem_range] at hmem
    obtain ⟨i, hi, hpe⟩ := hmem
    rw [← hpe]
    exact ⟨rfl, hi⟩
  have hsnd : (withPositions ds).map Prod.snd = List.range ds.length := by
    rw [withPositions, List.map_map]
    show (List.range ds.length).map (fun i => i) = List.range ds.length
    exact List.map_id' (List.range ds.length)
  have hsnd_nodup : (s.map Prod.snd).Nodup := by
    rw [(hperm.map Prod.snd).nodup_iff, hsnd]
    exact List.nodup_range _
  have htake_mem : ∀ p ∈ s.take k, p ∈ s := fun p hp => (List.take_sublist k s).subset hp
  have hsplit : ∀ x ∈ s.take k, ∀ y ∈ s.drop k, distOrder x y := by
    have h := hsorted
    rw [← List.take_append_drop k s] at h
    exact (List.pairwise_append.mp h).2.2
  refine ⟨(s.take k).map Prod.snd, ?_, ?_, ?_, ?_, ?_, ?_⟩
  · simp [topkSelect, hnotlt, hs]
  · rw [List.length_map, List.length_take, hslen]
    omega
  · rw [List.map_take]
    exact (List.take_sublist k _).nodup hsnd_nodup
  · intro i hi
    rw [List.mem_map] at hi
    obtain ⟨p, hp, hpe⟩ := hi
    rw [← hpe]
    exact (hmem_s p (htake_mem p hp)).2
  · rw [List.map_map]
    have hcongr : ((s.take k).map ((fun i => ds.getD i 0) ∘ Prod.snd))
        = (s.take k).map Prod.fst := by
      refine List.map_congr_left ?_
      intro p hp
      exact ((hmem_s p (htake_mem p hp)).1).symm
    rw [hcongr]
    have hpw : (s.take k).Pairwise distOrder := hsorted.sublist (List.take_sublist k s)
    rw [List.Sorted, List.pairwise_map]
    refine hpw.imp ?_
    intro a b hab
    rcases hab with h | h
    · exact le_of_lt h
    · exact le_of_eq h.1
  · intro i hi j hj hjn
    rw [List.mem_map] at hi
    obtain ⟨p, hp, hpe⟩ := hi
    have hq : ((ds.getD j 0, j) : ℚ × Nat) ∈ withPositions ds := by
      simp only [withPositions, List.mem_map, List.mem_range]
      exact ⟨j, hj, rfl⟩
    have hq_s : ((ds.getD j 0, j) : ℚ × Nat) ∈ s := hperm.mem_iff.mpr hq
    rw [← List.take_append_drop k s, List.mem_append] at hq_s
    rcases hq_s with hq_take | hq_drop
    · exact absurd (List.mem_map.mpr ⟨_, hq_take, rfl⟩) hjn
    · have hd := hsplit p hp _ hq_drop
      have hp1 : p.1 = ds.getD p.2 0 := (hmem_s p (htake_mem p hp)).1
      rcases hd with h | h
      · rw [← hpe, ← hp1]
        exact le_of_lt h
      · rw [← hpe, ← hp1]
        exact le_of_eq h.1

lemma topkSelect_none_iff (k : Nat) (ds : List ℚ) :
    topkSelect k ds = none ↔ ds.length < k := by
  unfold topkSelect
  by_cases h : ds.length < k
  · simp [h]
  · simp [h]

/-- The value `queryRow` returns when the distance capability is the
per-element map of a pure distance function (in which case it cannot
fail). -/
def queryRowPure [Inhabited V] (index2row : List (K × List Nat)) (candidates : List V)
    (d : V → V → ℚ) (k : Nat) (target : V) (qi : K) : RowResult :=
  match topkSelect k ((gatherRows candidates (lookupRows index2row qi)).map (d target)) with
  | some topk_idxs =>
    RowResult.pyList (topk_idxs.map (fun i => (lookupRows index2row qi).getD i 0))
  | none => RowResult.tensor (lookupRows index2row qi)

lemma queryRow_eq_pure [Inhabited V] (index2row : List (K × List Nat)) (candidates : List V)
    (d : V → V → ℚ) (distance_func : V → List V → Except Er (List ℚ))
    (hdist : ∀ q l, distance_func q l = Except.ok (l.map (d q)))
    (k : Nat) (target : V) (qi : K) :
    queryRow index2row candidates distance_func k target qi
      = Except.ok (queryRowPure index2row candidates d k target qi) := by
  unfold queryRow queryRowPure
  rw [hdist]
  show (match topkSelect k ((gatherRows candidates (lookupRows index2row qi)).map (d target)) with
    | some topk_idxs =>
      Except.ok (RowResult.pyList
        (topk_idxs.map (fun i => (lookupRows index2row qi).getD i 0)))
    | none => Except.ok (RowResult.tensor (lookupRows index2row qi))) = _
  cases topkSelect k ((gatherRows candidates (lookupRows index2row qi)).map (d target)) with
  | none => rfl
  | some topk_idxs => rfl

lemma getD_mem_of_lt {α : Type} (l : List α) (i : Nat) (hi : i < l.length) (dd : α) :
    l.getD i dd ∈ l := by
  rw [List.getD_eq_getElem l dd hi]
  exact List.getElem_mem hi

lemma getD_eq_get_of_lt {α : Type} (l : List α) (i : Nat) (hi : i < l.length) (dd : α) :
    l.getD i dd = l.get ⟨i, hi⟩ := by
  rw [List.getD_eq_getElem l dd hi, List.get_eq_getElem]

lemma lookupRows_build_index_nodup (xs : List K) (key : K) :
    (lookupRows (build_index xs) key).Nodup := by
  rw [lookupRows_build_index]
  exact (keyPositions_sorted key xs 0).nodup

lemma queryRow_spec [Inhabited V] (index2row : List (K × List Nat)) (candidates : List V)
    (d : V → V → ℚ) (distance_func : V → List V → Except Er (List ℚ))
    (hdist : ∀ q l, distance_func q l = Except.ok (l.map (d q)))
    (k : Nat) (target : V) (qi : K)
    (hnd : (lookupRows index2row qi).Nodup) :
    ∃ res, queryRow index2row candidates distance_func k target qi = Except.ok res
      ∧ res.rows.length = min k (lookupRows index2row qi).length
      ∧ (∀ r ∈ res.rows, r ∈ lookupRows index2row qi)
      ∧ (k ≤ (lookupRows index2row qi).length →
          res.rows.Nodup
          ∧ (res.rows.map (fun r => d target (candidates.getD r default))).Sorted (· ≤ ·)
          ∧ ∀ r ∈ res.rows, ∀ b ∈ lookupRows index2row qi, b ∉ res.rows →
              d target (candidates.getD r default) ≤ d target (candidates.getD b default))
      ∧ ((lookupRows index2row qi).length < k →
          res = RowResult.tensor (lookupRows index2row qi)) := by
  classical
  have hquery := queryRow_eq_pure index2row candidates d distance_func hdist k target qi
  set bucket := lookupRows index2row qi with hbucket
  set g : Nat → ℚ := fun r => d target (candidates.getD r default) with hg
  have hds : (gatherRows candidates bucket).map (d target) = bucket.map g := by
    rw [gatherRows, List.map_map]
    rfl
  have hdlen : (bucket.map g).length = bucket.length := List.length_map _ _
  by_cases hk : k ≤ bucket.length
  · obtain ⟨idxs, htop, hlen, hnodup, hbound, hsort, hmin⟩ :=
      topkSelect_spec k (bucket.map g) (by rw [hdlen]; exact hk)
    have hpure : queryRowPure index2row candidates d k target qi
        = RowResult.pyList (idxs.map (fun i => bucket.getD i 0)) := by
      unfold queryRowPure
      rw [← hbucket, hds, htop]
    have hboundb : ∀ i ∈ idxs, i < bucket.length := by
      intro i hi
      have := hbound i hi
      omega
    have hgetD_mem : ∀ i, i < bucket.length → bucket.getD i 0 ∈ bucket := by
      intro i hi
      exact getD_mem_of_lt bucket i hi 0
    refine ⟨RowResult.pyList (idxs.map (fun i => bucket.getD i 0)),
      by rw [hquery, hpure], ?_, ?_, ?_, ?_⟩
    · show (idxs.map (fun i => bucket.getD i 0)).length = min k bucket.length
      rw [List.length_map, hlen, Nat.min_eq_left hk]
    · intro r hr
      rw [RowResult.rows] at hr
      rw [List.mem_map] at hr
      obtain ⟨i, hi, hie⟩ := hr
      rw [← hie]
      exact hgetD_mem i (hboundb i hi)
    · intro _
      refine ⟨?_, ?_, ?_⟩
      · show (idxs.map (fun i => bucket.getD i 0)).Nodup
        refine List.Nodup.map_on ?_ hnodup
        intro i hi j hj hije
        have hib := hboundb i hi
        have hjb := hboundb j hj
        rw [getD_eq_get_of_lt bucket i hib 0, getD_eq_get_of_lt bucket j hjb 0] at hije
        exact congrArg Fin.val (hnd.get_inj_iff.mp hije)
      · show ((idxs.map (fun i => bucket.getD i 0)).map g).Sorted (· ≤ ·)
        rw [List.map_map]
        have hcongr : idxs.map (g ∘ fun i => bucket.getD i 0)
            = idxs.map (fun i => (bucket.map g).getD i 0) := by
          refine List.map_congr_left ?_
          intro i hi
          exact (map_getD_lt g bucket i (hboundb i hi) 0 0).symm
        rw [hcongr]
        exact hsort
      · intro r hr b hb hbn
        rw [RowResult.rows, List.mem_map] at hr
        obtain ⟨i, hi, hie⟩ := hr
        obtain ⟨⟨j, hjlt⟩, hget⟩ := List.mem_iff_get.mp hb
        have hjn : j ∉ idxs := by
          intro hj
          refine hbn ?_
          rw [RowResult.rows, List.mem_map]
          refine ⟨j, hj, ?_⟩
          rw [getD_eq_get_of_lt bucket j hjlt 0, hget]
        have h := hmin i hi j (by rw [hdlen]; exact hjlt) hjn
        rw [map_getD_lt g bucket i (hboundb i hi) 0 0,
          map_getD_lt g bucket j hjlt 0 0] at h
        have hbj : bucket.getD j 0 = b := by
          rw [getD_eq_get_of_lt bucket j hjlt 0, hget]
        rw [← hie, ← hbj]
        exact h
    · intro hlt
      exact absurd hk (not_le.mpr hlt)
  · push_neg at hk
    have htop : topkSelect k (bucket.map g) = none :=
      (topkSelect_none_iff k (bucket.map g)).mpr (by rw [hdlen]; exact hk)
    have hpure : queryRowPure index2row candidates d k target qi
        = RowResult.tensor bucket := by
      unfold queryRowPure
      rw [← hbucket, hds, htop]
    refine ⟨RowResult.tensor bucket, by rw [hquery, hpure], ?_, ?_, ?_, fun _ => rfl⟩
    · show bucket.length = min k bucket.length
      rw [Nat.min_eq_right (le_of_lt hk)]
    · intro r hr
      exact hr
    · intro hk2
      exact absurd hk2 (not_le.mpr hk)

lemma zip_map_self {α β : Type} (f : α → β) (l : List α) :
    l.zip (l.map f) = l.map (fun a => (a, f a)) := by
  induction l with
  | nil => rfl
  | cons a rest ih => simp [ih]

lemma queryRows_map [Inhabited V] (index2row : List (K × List Nat)) (candidates : List V)
    (distance_func : V → List V → Except Er (List ℚ)) (k : Nat)
    (F : V → K → RowResult)
    (hF : ∀ (q : V) (qi : K),
      queryRow index2row candidates distance_func k q qi = Except.ok (F q qi)) :
    ∀ pairs : List (V × K),
      queryRows index2row candidates distance_func k pairs
        = Except.ok (pairs.map (fun p => F p.1 p.2)) := by
  intro pairs
  induction pairs with
  | nil => rfl
  | cons p rest ih =>
    unfold queryRows
    rw [hF p.1 p.2, ih]
    rfl

/-- Claim C2: with a per-row hashing capability, a per-element distance
function and a positive chunk size, every row of the `_Indexer.query`
result has length `min k bucket_size` for the bucket of the query's own
hash key (an unseen key giving an empty bucket), contains only members of
that bucket and, when the bucket has at least `k` members, consists of `k`
distinct candidates of minimal distance to the query vector in ascending
distance order. -/
theorem indexerQuery_topk_spec [Inhabited V] (H : List V → Except Er (List K)) (f : V → K)
    (hH : ∀ l, H l = Except.ok (l.map f)) (d : V → V → ℚ)
    (distance_func : V → List V → Except Er (List ℚ))
    (hdist : ∀ q l, distance_func q l = Except.ok (l.map (d q)))
    (candidates query_vectors : List V) (k bs : Nat) (hbs : 0 < bs) :
    ∃ index2row results,
      mkIndexer H candidates bs = Except.ok index2row
      ∧ indexerQuery H index2row candidates distance_func query_vectors k bs
          = Except.ok results
      ∧ results.length = query_vectors.length
      ∧ ∀ t, t < query_vectors.length →
          ((results.getD t default).rows.length
              = min k (lookupRows index2row (f (query_vectors.getD t default))).length)
          ∧ (∀ r ∈ (results.getD t default).rows,
              r ∈ lookupRows index2row (f (query_vectors.getD t default)))
          ∧ (k ≤ (lookupRows index2row (f (query_vectors.getD t default))).length →
              (results.getD t default).rows.Nodup
              ∧ ((results.getD t default).rows.map
                    (fun r => d (query_vectors.getD t default)
                      (candidates.getD r default))).Sorted (· ≤ ·)
              ∧ ∀ r ∈ (results.getD t default).rows,
                  ∀ b ∈ lookupRows index2row (f (query_vectors.getD t default)),
                    b ∉ (results.getD t default).rows →
                      d (query_vectors.getD t default) (candidates.getD r default)
                        ≤ d (query_vectors.getD t default) (candidates.getD b default)) := by
  classical
  refine ⟨build_index (candidates.map f),
    query_vectors.map (fun q => queryRowPure (build_index (candidates.map f)) candidates d k q (f q)),
    ?_, ?_, by rw [List.length_map], ?_⟩
  · unfold mkIndexer
    rw [indexerHash_ok H f hH bs hbs candidates]
  · unfold indexerQuery
    rw [indexerHash_ok H f hH bs hbs query_vectors]
    show queryRows (build_index (candidates.map f)) candidates distance_func k
        (query_vectors.zip (query_vectors.map f)) = _
    rw [queryRows_map (build_index (candidates.map f)) candidates distance_func k
        (fun q qi => queryRowPure (build_index (candidates.map f)) candidates d k q qi)
        (fun q qi => queryRow_eq_pure (build_index (candidates.map f)) candidates d
          distance_func hdist k q qi)
        (query_vectors.zip (query_vectors.map f)),
      zip_map_self f query_vectors, List.map_map]
    rfl
  · intro t ht
    have hgd : (query_vectors.map
          (fun q => queryRowPure (build_index (candidates.map f)) candidates d k q (f q))).getD
          t default
        = queryRowPure (build_index (candidates.map f)) candidates d k
            (query_vectors.getD t default) (f (query_vectors.getD t default)) :=
      map_getD_lt _ query_vectors t ht default default
    obtain ⟨res, hres, hspec1, hspec2, hspec3, _⟩ :=
      queryRow_spec (build_index (candidates.map f)) candidates d distance_func hdist k
        (query_vectors.getD t default) (f (query_vectors.getD t default))
        (lookupRows_build_index_nodup (candidates.map f) (f (query_vectors.getD t default)))
    have hresq : queryRowPure (build_index (candidates.map f)) candidates d k
        (query_vectors.getD t default) (f (query_vectors.getD t default)) = res :=
      Except.ok.inj ((queryRow_eq_pure (build_index (candidates.map f)) candidates d
        distance_func hdist k (query_vectors.getD t default)
        (f (query_vectors.getD t default))).symm.trans hres)
    rw [hgd, hresq]
    exact ⟨hspec1, hspec2, hspec3⟩

/-- Witness for C2: a two-candidate set in one bucket, queried with
`k = 1`; the hypotheses of the top-k specification hold at this input. -/
theorem indexerQuery_topk_witness :
    (0 : Nat) < 1 ∧
    ∃ index2row results,
      mkIndexer
          (fun l : List ℚ => (Except.ok (l.map (fun _ => (0 : Nat))) : Except Unit (List Nat)))
          [1, 2] 1
        = Except.ok index2row
      ∧ indexerQuery
          (fun l : List ℚ => (Except.ok (l.map (fun _ => (0 : Nat))) : Except Unit (List Nat)))
          index2row [1, 2]
          (fun q l => Except.ok (l.map (fun b => q + b))) [5] 1 1
        = Except.ok results := by
  obtain ⟨i2r, res, h1, h2, _⟩ := indexerQuery_topk_spec
    (fun l : List ℚ => (Except.ok (l.map (fun _ => (0 : Nat))) : Except Unit (List Nat)))
    (fun _ => (0 : Nat)) (fun _ => rfl)
    (fun a b => a + b) (fun q l => Except.ok (l.map (fun b => q + b))) (fun _ _ => rfl)
    [1, 2] [5] 1 1 (by decide)
  exact ⟨by decide, i2r, res, h1, h2⟩

lemma queryRow_ok_iff [Inhabited V] (index2row : List (K × List Nat)) (candidates : List V)
    (distance_func : V → List V → Except Er (List ℚ)) (k : Nat) (target : V) (qi : K) :
    (∃ res, queryRow index2row candidates distance_func k target qi = Except.ok res)
      ↔ ∃ ds, distance_func target (gatherRows candidates (lookupRows index2row qi))
          = Except.ok ds := by
  unfold queryRow
  cases hd : distance_func target (gatherRows candidates (lookupRows index2row qi)) with
  | error e =>
    constructor
    · rintro ⟨res, hres⟩
      have h2 : (Except.error e : Except Er RowResult) = Except.ok res := hres
      cases h2
    · rintro ⟨ds, hds⟩
      cases hds
  | ok ds =>
    constructor
    · intro _
      exact ⟨ds, rfl⟩
    · intro _
      cases htop : topkSelect k ds with
      | some idxs =>
        refine ⟨RowResult.pyList (idxs.map (fun i => (lookupRows index2row qi).getD i 0)), ?_⟩
        show (match topkSelect k ds with
          | some topk_idxs =>
            Except.ok (RowResult.pyList
              (topk_idxs.map (fun i => (lookupRows index2row qi).getD i 0)))
          | none => Except.ok (RowResult.tensor (lookupRows index2row qi))) = _
        rw [htop]
      | none =>
        refine ⟨RowResult.tensor (lookupRows index2row qi), ?_⟩
        show (match topkSelect k ds with
          | some topk_idxs =>
            Except.ok (RowResult.pyList
              (topk_idxs.map (fun i => (lookupRows index2row qi).getD i 0)))
          | none => Except.ok (RowResult.tensor (lookupRows index2row qi))) = _
        rw [htop]

lemma queryRows_ok_iff [Inhabited V] (index2row : List (K × List Nat)) (candidates : List V)
    (distance_func : V → List V → Except Er (List ℚ)) (k : Nat) :
    ∀ pairs : List (V × K),
      (∃ results, queryRows index2row candidates distance_func k pairs = Except.ok results)
        ↔ ∀ p ∈ pairs, ∃ res,
            queryRow index2row candidates distance_func k p.1 p.2 = Except.ok res := by
  intro pairs
  induction pairs with
  | nil =>
    constructor
    · intro _ p hp
      simp at hp
    · intro _
      exact ⟨[], rfl⟩
  | cons p rest ih =>
    constructor
    · rintro ⟨results, hres⟩
      unfold queryRows at hres
      cases hq : queryRow index2row candidates distance_func k p.1 p.2 with
      | error e =>
        rw [hq] at hres
        have h2 : (Except.error e : Except Er (List RowResult)) = Except.ok results := hres
        cases h2
      | ok res0 =>
        rw [hq] at hres
        cases hrest : queryRows index2row candidates distance_func k rest with
        | error e =>
          rw [hrest] at hres
          have h2 : (Except.error e : Except Er (List RowResult)) = Except.ok results := hres
          cases h2
        | ok results0 =>
          intro p2 hp2
          rcases List.mem_cons.mp hp2 with hp2 | hp2
          · subst hp2
            exact ⟨res0, hq⟩
          · exact (ih.mp ⟨results0, hrest⟩) p2 hp2
    · intro hall
      obtain ⟨res0, hq⟩ := hall p (List.mem_cons_self p rest)
      obtain ⟨results0, hrest⟩ := ih.mpr (fun p2 hp2 => hall p2 (List.mem_cons_of_mem p hp2))
      refine ⟨res0 :: results0, ?_⟩
      unfold queryRows
      rw [hq, hrest]

lemma queryRows_getD [Inhabited V] [Inhabited K] (index2row : List (K × List Nat))
    (candidates : List V) (distance_func : V → List V → Except Er (List ℚ)) (k : Nat) :
    ∀ (pairs : List (V × K)) (results : List RowResult),
      queryRows index2row candidates distance_func k pairs = Except.ok results →
      results.length = pairs.length
      ∧ ∀ t, t < pairs.length →
          queryRow index2row candidates distance_func k (pairs.getD t default).1
            (pairs.getD t default).2 = Except.ok (results.getD t default) := by
  intro pairs
  induction pairs with
  | nil =>
    intro results h
    unfold queryRows at h
    have hres : results = [] := (Except.ok.inj h).symm
    subst hres
    exact ⟨rfl, fun t ht => absurd ht (by simp)⟩
  | cons p rest ih =>
    intro results h
    unfold queryRows at h
    cases hq : queryRow index2row candidates distance_func k p.1 p.2 with
    | error e =>
      rw [hq] at h
      have h2 : (Except.error e : Except Er (List RowResult)) = Except.ok results := h
      cases h2
    | ok res0 =>
      rw [hq] at h
      cases hrest : queryRows index2row candidates distance_func k rest with
      | error e =>
        rw [hrest] at h
        have h2 : (Except.error e : Except Er (List RowResult)) = Except.ok results := h
        cases h2
      | ok results0 =>
        rw [hrest] at h
        have h2 : (Except.ok (res0 :: results0) : Except Er (List RowResult))
            = Except.ok results := h
        have hres : results = res0 :: results0 := (Except.ok.inj h2).symm
        subst hres
        obtain ⟨hlen, hgt⟩ := ih results0 hrest
        refine ⟨by simp [hlen], ?_⟩
        intro t ht
        cases t with
        | zero => simpa using hq
        | succ t =>
          simp only [List.getD_cons_succ]
          exact hgt t (by simpa using ht)

lemma zip_getD {α β : Type} [Inhabited α] [Inhabited β] :
    ∀ (l1 : List α) (l2 : List β) (t : Nat), t < (l1.zip l2).length →
      (l1.zip l2).getD t default = (l1.getD t default, l2.getD t default) := by
  intro l1
  induction l1 with
  | nil =>
    intro l2 t ht
    simp at ht
  | cons a rest ih =>
    intro l2 t ht
    cases l2 with
    | nil => simp at ht
    | cons b rest2 =>
      cases t with
      | zero => rfl
      | succ t =>
        simp only [List.zip_cons_cons, List.getD_cons_succ]
        exact ih rest2 t (by simpa using ht)

/-- Claim C6: in `_Indexer.query` the only recovered failure is the
rank-selection shortfall.  A fault of the batched hashing path propagates
unchanged; the query succeeds exactly when every row's distance
computation succeeds; and, per returned row, the caught selection failure
is exactly the case of a bucket with fewer than `k` members (empty for an
unseen key), whose result is the bucket's full unranked membership. -/
theorem indexerQuery_error_semantics [Inhabited V] [Inhabited K]
    (H : List V → Except Er (List K)) (index2row : List (K × List Nat))
    (candidates : List V) (distance_func : V → List V → Except Er (List ℚ))
    (hlen : ∀ q l ds, distance_func q l = Except.ok ds → ds.length = l.length)
    (query_vectors : List V) (k bs : Nat) :
    (∀ e, indexerHash H query_vectors bs = Except.error e →
        indexerQuery H index2row candidates distance_func query_vectors k bs
          = Except.error e)
    ∧ (∀ qis, indexerHash H query_vectors bs = Except.ok qis →
        ((∃ results, indexerQuery H index2row candidates distance_func query_vectors k bs
            = Except.ok results)
          ↔ ∀ p ∈ query_vectors.zip qis,
              ∃ ds, distance_func p.1
                  (gatherRows candidates (lookupRows index2row p.2)) = Except.ok ds))
    ∧ ∀ qis results, indexerHash H query_vectors bs = Except.ok qis →
        indexerQuery H index2row candidates distance_func query_vectors k bs
          = Except.ok results →
        ∀ t, t < (query_vectors.zip qis).length →
          (results.getD t default
              = RowResult.tensor (lookupRows index2row (qis.getD t default))
            ↔ (lookupRows index2row (qis.getD t default)).length < k) := by
  refine ⟨?_, ?_, ?_⟩
  · intro e herr
    unfold indexerQuery
    rw [herr]
  · intro qis hok
    have hred : indexerQuery H index2row candidates distance_func query_vectors k bs
        = queryRows index2row candidates distance_func k (query_vectors.zip qis) := by
      unfold indexerQuery
      rw [hok]
    rw [hred]
    rw [queryRows_ok_iff index2row candidates distance_func k (query_vectors.zip qis)]
    constructor
    · intro hall p hp
      exact (queryRow_ok_iff index2row candidates distance_func k p.1 p.2).mp (hall p hp)
    · intro hall p hp
      exact (queryRow_ok_iff index2row candidates distance_func k p.1 p.2).mpr (hall p hp)
  · intro qis results hok hq t ht
    have hqr : queryRows index2row candidates distance_func k (query_vectors.zip qis)
        = Except.ok results := by
      unfold indexerQuery at hq
      rw [hok] at hq
      exact hq
    obtain ⟨hlen_res, hrow⟩ :=
      queryRows_getD index2row candidates distance_func k (query_vectors.zip qis) results hqr
    have hq_t := hrow t ht
    rw [zip_getD query_vectors qis t ht] at hq_t
    unfold queryRow at hq_t
    cases hd : distance_func (query_vectors.getD t default)
        (gatherRows candidates (lookupRows index2row (qis.getD t default))) with
    | error e =>
      rw [hd] at hq_t
      have h2 : (Except.error e : Except Er RowResult)
          = Except.ok (results.getD t default) := hq_t
      cases h2
    | ok ds =>
      rw [hd] at hq_t
      have hdslen : ds.length = (lookupRows index2row (qis.getD t default)).length := by
        rw [hlen (query_vectors.getD t default) _ ds hd, gatherRows, List.length_map]
      have hq_t2 : (match topkSelect k ds with
          | some topk_idxs =>
            Except.ok (RowResult.pyList
              (topk_idxs.map (fun i => (lookupRows index2row (qis.getD t default)).getD i 0)))
          | none =>
            (Except.ok (RowResult.tensor (lookupRows index2row (qis.getD t default)))
              : Except Er RowResult))
          = Except.ok (results.getD t default) := hq_t
      cases htop : topkSelect k ds with
      | some idxs =>
        rw [htop] at hq_t2
        have hres : results.getD t default
            = RowResult.pyList
              (idxs.map (fun i => (lookupRows index2row (qis.getD t default)).getD i 0)) :=
          (Except.ok.inj hq_t2).symm
        have hklen : ¬ ds.length < k := by
          intro hlt
          have hnone := (topkSelect_none_iff k ds).mpr hlt
          rw [hnone] at htop
          cases htop
        refine iff_of_false ?_ (by omega)
        rw [hres]
        intro hcontra
        cases hcontra
      | none =>
        rw [htop] at hq_t2
        have hres : results.getD t default
            = RowResult.tensor (lookupRows index2row (qis.getD t default)) :=
          (Except.ok.inj hq_t2).symm
        have hlt : ds.length < k := (topkSelect_none_iff k ds).mp htop
        exact iff_of_true hres (by omega)

/-- Witness for C6: a query whose bucket holds 2 candidates with `k = 5`
takes the recovered fallback: the result row is the bucket's full
membership tensor. -/
theorem indexerQuery_error_witness :
    (([RowResult.tensor [0, 1]] : List RowResult).getD 0 default
        = RowResult.tensor (lookupRows [((0 : Nat), [0, 1])] (([0] : List Nat).getD 0 default)))
      ↔ (lookupRows [((0 : Nat), [0, 1])] (([0] : List Nat).getD 0 default)).length < 5 :=
  (indexerQuery_error_semantics
    (fun l : List ℚ => (Except.ok (l.map (fun _ => (0 : Nat))) : Except Nat (List Nat)))
    [((0 : Nat), [0, 1])] [(1 : ℚ), 2]
    (fun _ l => Except.ok (l.map (fun x => x)))
    (fun _ l ds h => by rw [← Except.ok.inj h]; exact List.length_map l _)
    [(5 : ℚ)] 5 1024).2.2 [0] [RowResult.tensor [0, 1]] rfl rfl 0 (by decide)

/-- Claim C10: the two branches of `_Indexer.query` return different
per-row representations: with at least `k` bucket members the row is a
Python list of ints (`RowResult.pyList`), while the fallback for a bucket
smaller than `k` (including the empty bucket of an unseen key) returns the
bucket's `LongTensor` of candidate rows itself (`RowResult.tensor`), not
converted to a list of ints. -/
theorem queryRow_representation [Inhabited V] (index2row : List (K × List Nat))
    (candidates : List V) (distance_func : V → List V → Except Er (List ℚ))
    (k : Nat) (target : V) (qi : K)
    (hlen : ∀ ds, distance_func target (gatherRows candidates (lookupRows index2row qi))
        = Except.ok ds → ds.length = (lookupRows index2row qi).length) :
    ∀ res, queryRow index2row candidates distance_func k target qi = Except.ok res →
      (k ≤ (lookupRows index2row qi).length → ∃ rows, res = RowResult.pyList rows)
      ∧ ((lookupRows index2row qi).length < k →
          res = RowResult.tensor (lookupRows index2row qi)) := by
  intro res hres
  unfold queryRow at hres
  cases hd : distance_func target (gatherRows candidates (lookupRows index2row qi)) with
  | error e =>
    rw [hd] at hres
    have h2 : (Except.error e : Except Er RowResult) = Except.ok res := hres
    cases h2
  | ok ds =>
    rw [hd] at hres
    have hdslen : ds.length = (lookupRows index2row qi).length := hlen ds hd
    have hres2 : (match topkSelect k ds with
        | some topk_idxs =>
          Except.ok (RowResult.pyList
            (topk_idxs.map (fun i => (lookupRows index2row qi).getD i 0)))
        | none =>
          (Except.ok (RowResult.tensor (lookupRows index2row qi)) : Except Er RowResult))
        = Except.ok res := hres
    cases htop : topkSelect k ds with
    | some idxs =>
      rw [htop] at hres2
      have hr : res = RowResult.pyList
          (idxs.map (fun i => (lookupRows index2row qi).getD i 0)) :=
        (Except.ok.inj hres2).symm
      have hklen : ¬ ds.length < k := by
        intro hlt
        have hnone := (topkSelect_none_iff k ds).mpr hlt
        rw [hnone] at htop
        cases htop
      exact ⟨fun _ => ⟨_, hr⟩, fun hlt => absurd (by omega : ds.length < k) hklen⟩
    | none =>
      rw [htop] at hres2
      have hr : res = RowResult.tensor (lookupRows index2row qi) :=
        (Except.ok.inj hres2).symm
      have hlt : ds.length < k := (topkSelect_none_iff k ds).mp htop
      refine ⟨fun hk => absurd hk (by omega), fun _ => hr⟩

/-- Witness for C10: a single-candidate bucket queried with `k = 3` takes
the fallback branch, whose result is the bucket tensor itself. -/
theorem queryRow_representation_witness :
    RowResult.tensor [0] = RowResult.tensor (lookupRows [((7 : Nat), [0])] 7) :=
  (queryRow_representation [((7 : Nat), [0])] [(4 : ℚ)]
      (fun _ l => (Except.ok (l.map (fun x => x)) : Except Nat (List ℚ))) 3 (9 : ℚ) 7
      (fun ds h => by rw [← Except.ok.inj h]; exact List.length_map _ _)
      (RowResult.tensor [0]) rfl).2 (by decide)

/-- Zero-padded rendering of the 4-digit fractional part of a fixed-point
decimal. -/
def pad4 (n : Nat) : String :=
  if n < 10 then "000" ++ toString n
  else if n < 100 then "00" ++ toString n
  else if n < 1000 then "0" ++ toString n
  else toString n

/-- Model of Python's `{value:.4f}` formatting for the (nonnegative)
recall value: round to 4 decimal places and render with exactly 4 digits
after the point. -/
def fmt4 (q : ℚ) : String :=
  toString ((round (q * 10000) : Int).toNat / 10000) ++ "."
    ++ pad4 ((round (q * 10000) : Int).toNat % 10000)

/-- The checkpoint path prefix
`f"{self._model_save_dir}/{self._logger.run_name}_{global_step}_{current_recall:.4f}"`
(`nlsh/trainers.py` line 197, identical at line 305). -/
def checkpointBaseName (model_save_dir run_name : String) (global_step : Nat)
    (recallValue : ℚ) : String :=
  model_save_dir ++ "/" ++ run_name ++ "_" ++ toString global_step ++ "_" ++ fmt4 recallValue

/-- One evaluation event of the fit loops (`nlsh/trainers.py` lines
196-199 and 304-307): if the just-computed recall strictly exceeds the
best recall so far, `hashing.save(base_name)` is called and the high-water
mark is updated; otherwise nothing is saved.  The first component is the
path passed to `save` (`none` when no checkpoint is written), the second
the updated `best_recall`. -/
def fitEvalStep (dir run : String) (best : ℚ) (step : Nat) (recallValue : ℚ) :
    Option String × ℚ :=
  if best < recallValue then (some (checkpointBaseName dir run step recallValue), recallValue)
  else (none, best)

/-- The sequence of evaluation events of one fit run over the listed
`(global_step, recall)` events, threading `best_recall` (initialised to
`0.` by `fit`, line 148 and line 254). -/
def fitEvalTrace (dir run : String) (best : ℚ) : List (Nat × ℚ) → List (Option String × ℚ)
  | [] => []
  | (step, r) :: rest =>
    fitEvalStep dir run best step r
      :: fitEvalTrace dir run (fitEvalStep dir run best step r).2 rest

lemma fitEvalStep_snd (dir run : String) (best : ℚ) (step : Nat) (r : ℚ) :
    (fitEvalStep dir run best step r).2 = max best r := by
  unfold fitEvalStep
  rcases le_or_lt r best with h | h
  · rw [if_neg (not_lt.mpr h), max_eq_left h]
  · rw [if_pos h, max_eq_right (le_of_lt h)]

lemma fitEvalTrace_getD (dir run : String) :
    ∀ (events : List (Nat × ℚ)) (best : ℚ) (t : Nat), t < events.length →
      (fitEvalTrace dir run best events).getD t (none, 0)
        = fitEvalStep dir run (((events.take t).map Prod.snd).foldl max best)
            (events.getD t (0, 0)).1 (events.getD t (0, 0)).2 := by
  intro events
  induction events with
  | nil =>
    intro best t ht
    simp at ht
  | cons e rest ih =>
    intro best t ht
    obtain ⟨step, r⟩ := e
    cases t with
    | zero =>
      simp [fitEvalTrace]
    | succ t =>
      have hrw : fitEvalTrace dir run best ((step, r) :: rest)
          = fitEvalStep dir run best step r
            :: fitEvalTrace dir run (fitEvalStep dir run best step r).2 rest := rfl
      rw [hrw, List.getD_cons_succ, ih (fitEvalStep dir run best step r).2 t (by simpa using ht),
        fitEvalStep_snd]
      have htake : (((step, r) :: rest).take (t + 1)).map Prod.snd
          = r :: ((rest.take t).map Prod.snd) := rfl
      rw [htake, List.foldl_cons, List.getD_cons_succ]

lemma foldl_max_lt_iff (l : List ℚ) (b x : ℚ) :
    l.foldl max b < x ↔ b < x ∧ ∀ y ∈ l, y < x := by
  induction l generalizing b with
  | nil => simp
  | cons a rest ih =>
    rw [List.foldl_cons, ih, max_lt_iff]
    constructor
    · rintro ⟨⟨h1, h2⟩, h3⟩
      refine ⟨h1, fun y hy => ?_⟩
      rcases List.mem_cons.mp hy with h | h
      · subst h
        exact h2
      · exact h3 y h
    · rintro ⟨h1, h2⟩
      exact ⟨⟨h1, h2 a (List.mem_cons_self a rest)⟩,
        fun y hy => h2 y (List.mem_cons_of_mem a hy)⟩

/-- Counterexample to C3 as stated: at the first evaluation event of a run
whose recall is `0`, the code writes no checkpoint (`best_recall` starts
at `0.` and the comparison is strict), although recall `0` vacuously
exceeds every previously computed recall of the run, so the claim's
biconditional — and its clause that the first event always checkpoints —
fails. -/
theorem fit_first_event_no_checkpoint :
    (∀ r ∈ (([(1000, (0 : ℚ))] : List (Nat × ℚ)).take 0).map Prod.snd,
        r < (([(1000, (0 : ℚ))] : List (Nat × ℚ)).getD 0 (0, 0)).2)
    ∧ ((fitEvalTrace "models" "run0" 0 [(1000, (0 : ℚ))]).getD 0 (none, 0)).1.isSome
        = false := by
  constructor
  · intro r hr
    simp at hr
  · decide

/-- Claim C3 amended: a checkpoint is written at an evaluation event iff
the just-computed recall strictly exceeds the maximum of `0` (the initial
`best_recall`) and every previously computed recall of that run — so the
first event checkpoints iff its recall is strictly positive, not
unconditionally.  The high-water mark after an event is the maximum of the
previous mark and the event's recall, and it changes exactly when a
checkpoint is written. -/
theorem fit_checkpoint_iff (dir run : String) (events : List (Nat × ℚ)) (t : Nat)
    (ht : t < events.length) :
    (((fitEvalTrace dir run 0 events).getD t (none, 0)).1.isSome = true
        ↔ (0 < (events.getD t (0, 0)).2
            ∧ ∀ r ∈ (events.take t).map Prod.snd, r < (events.getD t (0, 0)).2))
    ∧ (((fitEvalTrace dir run 0 events).getD t (none, 0)).2
        = max (((events.take t).map Prod.snd).foldl max 0) (events.getD t (0, 0)).2)
    ∧ (((fitEvalTrace dir run 0 events).getD t (none, 0)).1.isSome = true
        ↔ ((fitEvalTrace dir run 0 events).getD t (none, 0)).2
            ≠ ((events.take t).map Prod.snd).foldl max 0) := by
  have hcore := fitEvalTrace_getD dir run events 0 t ht
  set B := ((events.take t).map Prod.snd).foldl max 0 with hB
  set r := (events.getD t (0, 0)).2 with hr
  have hsome : ((fitEvalTrace dir run 0 events).getD t (none, 0)).1.isSome = true ↔ B < r := by
    rw [hcore]
    unfold fitEvalStep
    by_cases h : B < r
    · simp [h]
    · simp [h]
  have hsnd : ((fitEvalTrace dir run 0 events).getD t (none, 0)).2 = max B r := by
    rw [hcore, fitEvalStep_snd]
  refine ⟨?_, hsnd, ?_⟩
  · rw [hsome, hB, foldl_max_lt_iff]
  · rw [hsome, hsnd]
    constructor
    · intro h
      rw [max_eq_right (le_of_lt h)]
      exact (ne_of_lt h).symm
    · intro h
      by_contra hnot
      rw [not_lt] at hnot
      exact h (max_eq_left hnot)

/-- Witness for the amended C3: two evaluation events with recalls `1`
then `2`; the second event checkpoints because `2` exceeds both `0` and
`1`. -/
theorem fit_checkpoint_iff_witness :
    ((fitEvalTrace "models" "run0" 0 [(1000, (1 : ℚ)), (2000, 2)]).getD 1 (none, 0)).1.isSome
        = true
      ↔ (0 < (([(1000, (1 : ℚ)), (2000, 2)] : List (Nat × ℚ)).getD 1 (0, 0)).2
          ∧ ∀ r ∈ (([(1000, (1 : ℚ)), (2000, 2)] : List (Nat × ℚ)).take 1).map Prod.snd,
              r < (([(1000, (1 : ℚ)), (2000, 2)] : List (Nat × ℚ)).getD 1 (0, 0)).2) :=
  (fit_checkpoint_iff "models" "run0" [(1000, 1), (2000, 2)] 1 (by decide)).1

/-- Claim C7: whenever an evaluation event writes a checkpoint, the path
prefix passed to the hash model's `save` is exactly
`{model_save_dir}/{run_name}_{global_step}_{recall:.4f}` for that event's
global step and just-computed recall, joined with those separators in that
order; concretely, recall `1/2` at step 1000 under run name `Null` gives
`models/Null_1000_0.5000`. -/
theorem fit_save_path (dir run : String) (events : List (Nat × ℚ)) (t : Nat)
    (ht : t < events.length) :
    (∀ p, ((fitEvalTrace dir run 0 events).getD t (none, 0)).1 = some p →
        p = checkpointBaseName dir run (events.getD t (0, 0)).1 (events.getD t (0, 0)).2)
    ∧ checkpointBaseName "models" "Null" 1000 (1 / 2) = "models/Null_1000_0.5000" := by
  constructor
  · intro p hp
    rw [fitEvalTrace_getD dir run events 0 t ht] at hp
    unfold fitEvalStep at hp
    by_cases h : ((events.take t).map Prod.snd).foldl max 0 < (events.getD t (0, 0)).2
    · rw [if_pos h] at hp
      exact (Option.some.inj hp).symm
    · rw [if_neg h] at hp
      cases hp
  · have hround : round ((1 / 2 : ℚ) * 10000) = 5000 := by norm_num [round_eq]
    unfold checkpointBaseName fmt4
    rw [hround]
    decide

/-- Witness for C7: the concrete path rendering for run `Null`, step 1000,
recall `1/2`. -/
theorem fit_save_path_witness :
    checkpointBaseName "models" "Null" 1000 (1 / 2) = "models/Null_1000_0.5000" :=
  (fit_save_path "models" "Null" [(1000, (1 : ℚ))] 0 (by decide)).2

/-- A logger class of `nlsh/loggers.py`, modelled by the set of sink
members its class body defines and the value of its `run_name` property
when defined. -/
structure LoggerImpl : Type where
  members : List String
  run_name_value : Option String
deriving DecidableEq

/-- `NullLogger` (`nlsh/loggers.py` lines 4-17): its body defines the
`run_name` property (returning "Null"), `meta(*args, **kwargs)` and
`log(name, loss, step)` — and no `args` method. -/
def nullLogger : LoggerImpl :=
  { members := ["run_name", "meta", "log"], run_name_value := some "Null" }

/-- `NullLogger.meta`: `pass` — accepts anything, no effect. -/
def nullLoggerMeta : Unit := ()

/-- `NullLogger.log(name, loss, step)`: `pass` — no effect. -/
def nullLoggerLog (name : String) (value : ℚ) (step : Nat) : Unit := ()

/-- Modelled from the spec: the Metrics Sink interface members listed by
the specification — `meta(params)`, `args(text)`, `log(name, value, step)`
and the `run_name` property — for comparison with the class body. -/
def specSinkMembers : List String := ["meta", "args", "log", "run_name"]

/-- The logger members the trainers invoke (`nlsh/trainers.py`:
`self._logger.log(...)` in both fit loops and `self._logger.run_name` at
lines 197 and 305; neither trainer calls `meta` or `args`). -/
def trainerSinkCalls : List String := ["log", "run_name"]

/-- `self._logger = logger or NullLogger()` (`nlsh/trainers.py` lines 119
and 222): a missing metrics sink defaults to `NullLogger`. -/
def defaultLogger (logger : Option LoggerImpl) : LoggerImpl :=
  logger.getD nullLogger

/-- Counterexample to C8 as stated: the default `NullLogger` does not
define `args(text)` — its class body has no `args` member, so invoking
`args` on it would raise `AttributeError` — hence the default does not
support the full interface listed by the claim. -/
theorem nullLogger_missing_args :
    ¬ ∀ m ∈ specSinkMembers, m ∈ (defaultLogger none).members := by
  decide

/-- Claim C8 amended: when a trainer is constructed with no metrics sink,
the no-op `NullLogger` is the default; it supports `meta`, `log` and the
`run_name` property (value "Null"), each without error and without
effect, but it does not define `args(text)`; the sink members the
trainers actually invoke — `log` and `run_name` — are all supported. -/
theorem nullLogger_default_support :
    defaultLogger none = nullLogger
    ∧ (∀ m ∈ trainerSinkCalls, m ∈ (defaultLogger none).members)
    ∧ (defaultLogger none).run_name_value = some "Null"
    ∧ "meta" ∈ (defaultLogger none).members
    ∧ "log" ∈ (defaultLogger none).members
    ∧ "args" ∉ (defaultLogger none).members
    ∧ (∀ n v s, nullLoggerLog n v s = ())
    ∧ nullLoggerMeta = () :=
  ⟨rfl, by decide, rfl, by decide, by decide, by decide, fun n v s => rfl, rfl⟩

/-- Witness for the amended C8: `log`, invoked by the trainers, is a
member of the default logger. -/
theorem nullLogger_default_support_witness :
    ("log" ∈ trainerSinkCalls) ∧ "log" ∈ (defaultLogger none).members :=
  ⟨by decide, nullLogger_default_support.2.1 "log" (by decide)⟩

end NLSH
